import Mathlib

/-!
Verification development for the chatllama RLHF reward module
(`chatllama/rlhf/reward.py`): the `RewardModel` scalar head, the
`RewardDataset`, and the `RewardTrainer.train` loop, shallowly embedded.
-/

/-- A batch of token sequences: one row of token ids per example. -/
abbrev Tokens := List (List Int)

/-- Configuration fields of `ConfigReward` read by `RewardModel`. -/
structure ConfigRewardModel where
  max_sequence_length : Nat
  debug : Bool
deriving Repr, DecidableEq

/-- The second tensor dimension, `t.shape[1]`: the common row length of the
batch (rows of a tensor all share it). -/
def shapeDim1 (t : Tokens) : Nat := (t.headD []).length

/-- The reward model.  Modelled from the spec: the pretrained base model and
the scalar head live in `chatllama.rlhf.base_model.BaseModel`, which is not
part of this tree; per the spec the head maps the hidden state of every token
to one real number, so their composition is carried as the opaque function
`base_forward` from a token batch and its attention mask to one rational
reward per example per position. -/
structure RewardModel where
  config : ConfigRewardModel
  base_forward : Tokens → Tokens → List (List ℚ)

/-- Embeds `RewardModel.forward` (reward.py lines 28-55): run the base model
on the sequence and mask and apply the head at every position, giving a
reward matrix of shape batch x positions.  The debug prints at lines 49-54
have no effect on the returned value and are omitted. -/
def RewardModel.forward (m : RewardModel) (output_sequence : Tokens)
    (output_sequence_mask : Tokens) : List (List ℚ) :=
  m.base_forward output_sequence output_sequence_mask

/-- The message of the `ValueError` raised at reward.py lines 69-72. -/
def lengthErrorMsg (actual maxLen : Nat) : String :=
  "Output sequence is too long: " ++ toString actual ++ " > " ++ toString maxLen

/-- `rewards[:, -1]`: the value at the last sequence position for every
example of the batch. -/
def lastCol (t : List (List ℚ)) : List ℚ := t.map (fun row => row.getLastD 0)

/-- Embeds `RewardModel.get_reward` (reward.py lines 57-74): raise a
`ValueError` when `output_sequence.shape[1]` exceeds
`config.max_sequence_length`, otherwise return `forward(...)[:, -1]`. -/
def RewardModel.get_reward (m : RewardModel) (output_sequence : Tokens)
    (output_sequence_mask : Tokens) : Except String (List ℚ) :=
  if shapeDim1 output_sequence > m.config.max_sequence_length then
    Except.error (lengthErrorMsg (shapeDim1 output_sequence) m.config.max_sequence_length)
  else
    Except.ok (lastCol (m.forward output_sequence output_sequence_mask))

/-- Embeds the forward pass of the deepspeed branch of `RewardTrainer.train`
(reward.py lines 257-261): `est_output = self.model_engine(ids, mask)[:, -1]`.
The deepspeed engine wraps the model; calling it runs a forward pass, carried
here as the opaque function `engine`.  No length validation is performed. -/
def deepspeedStepOutput (engine : Tokens → Tokens → List (List ℚ))
    (ids mask : Tokens) : List ℚ :=
  lastCol (engine ids mask)

/-- One record of the reward dataset JSON file:
`(user_input : string, completion : string, score : number)`; the score is
carried as a rational standing for the numeric value that `float(...)`
coerces it to. -/
structure RewardRecord where
  user_input : String
  completion : String
  score : ℚ

/-- Embeds `RewardDataset`: the parsed list of records (reward.py line 100). -/
structure RewardDataset where
  data : List RewardRecord

/-- Embeds `RewardDataset.__getitem__` (reward.py lines 102-107): the pair of
`user_input + completion` and `float(score)`, `none` for an out-of-range
index (Python raises `IndexError` there). -/
def RewardDataset.getItem (d : RewardDataset) (idx : Nat) : Option (String × ℚ) :=
  match d.data[idx]? with
  | some r => some (r.user_input ++ r.completion, r.score)
  | none => none

/-- Embeds `RewardDataset.__len__` (reward.py lines 109-112). -/
def RewardDataset.size (d : RewardDataset) : Nat := d.data.length


/-- Sequential fixed-size batching: the behaviour of
`DataLoader(dataset, batch_size=B)` with torch defaults `shuffle=False`,
`drop_last=False` as constructed at reward.py lines 175-177 — chunks of `B`
consecutive items in store order, the last chunk possibly shorter. -/
def chunks {α : Type} (B : Nat) (l : List α) : List (List α) :=
  match l with
  | [] => []
  | x :: xs =>
    if _hB : B = 0 then []
    else (x :: xs).take B :: chunks B ((x :: xs).drop B)
termination_by l.length
decreasing_by
  simp only [List.length_drop, List.length_cons]
  omega

/-- The training dataloader of `RewardTrainer` (reward.py lines 175-177). -/
def trainBatchesOf {α : Type} (batch_size : Nat) (dataset : List α) : List (List α) :=
  chunks batch_size dataset

/-- The observable effects of one run of `RewardTrainer.train`, in program
order.  A `getRewardCall` records whether it happens under `torch.no_grad()`
(true only in the validation pass). -/
inductive TrainEvent where
  | engineForward
  | getRewardCall (noGrad : Bool)
  | appendTrainingLoss
  | appendValidationLoss
  | engineBackward
  | engineStep
  | zeroGrad
  | acceleratorBackward
  | lossBackward
  | optimizerStep
  | schedulerStep
  | logProgress
  | saveCheckpoint (epoch i : Nat)
  | saveModel
deriving Repr, DecidableEq

/-- The configuration fields of `ConfigReward` that `RewardTrainer.train`
reads; `validation_flag` is the boolean set in `__init__` (reward.py lines
168-170) from `validation_dataset_path is not None`. -/
structure ConfigTrainer where
  deepspeed_enable : Bool
  accelerate_enable : Bool
  checkpoint_steps : Nat
  iteration_per_print : Nat
  epochs : Nat
  validation_flag : Bool
deriving Repr, DecidableEq

/-- The backward-pass branch of a training step (reward.py lines 272-285):
deepspeed delegates backward and step entirely to the engine; the accelerate
branch zeroes gradients, calls `accelerator.backward`, steps the optimizer
and the scheduler; the plain branch does the same with `loss.backward()`. -/
def backwardEvents (cfg : ConfigTrainer) : List TrainEvent :=
  if cfg.deepspeed_enable then
    [TrainEvent.engineBackward, TrainEvent.engineStep]
  else if cfg.accelerate_enable then
    [TrainEvent.zeroGrad, TrainEvent.acceleratorBackward, TrainEvent.optimizerStep,
      TrainEvent.schedulerStep]
  else
    [TrainEvent.zeroGrad, TrainEvent.lossBackward, TrainEvent.optimizerStep,
      TrainEvent.schedulerStep]

/-- The forward-pass branch of a training step (reward.py lines 256-266):
under deepspeed the engine is called directly, otherwise `get_reward`. -/
def forwardEvent (cfg : ConfigTrainer) : TrainEvent :=
  if cfg.deepspeed_enable then TrainEvent.engineForward
  else TrainEvent.getRewardCall false

/-- The effects of one processed training batch apart from checkpointing
(reward.py lines 240-300): the forward pass, the training-loss record, the
backward pass, and the periodic progress print. -/
def batchCoreEvents (cfg : ConfigTrainer) (i : Nat) : List TrainEvent :=
  forwardEvent cfg :: TrainEvent.appendTrainingLoss :: backwardEvents cfg
    ++ (if i % cfg.iteration_per_print = 0 then [TrainEvent.logProgress] else [])

/-- One non-skipped iteration of the inner loop, including the checkpoint
cadence (reward.py lines 302-307): save and reset the counter to 1 when it is
a multiple of `checkpoint_steps`, else increment it. -/
def processBatch (cfg : ConfigTrainer) (epoch i cnt : Nat) : List TrainEvent × Nat :=
  if cnt % cfg.checkpoint_steps = 0 then
    (batchCoreEvents cfg i ++ [TrainEvent.saveCheckpoint epoch i], 1)
  else
    (batchCoreEvents cfg i, cnt + 1)

/-- The inner loop over the enumerated training batches (reward.py lines
234-307): a batch whose index is below `start_step` is skipped outright
(lines 236-238), before any other work. -/
def foldBatches (cfg : ConfigTrainer) (epoch start_step : Nat) :
    List Nat → Nat → List TrainEvent × Nat
  | [], cnt => ([], cnt)
  | i :: rest, cnt =>
    if i < start_step then foldBatches cfg epoch start_step rest cnt
    else
      ((processBatch cfg epoch i cnt).1
          ++ (foldBatches cfg epoch start_step rest (processBatch cfg epoch i cnt).2).1,
        (foldBatches cfg epoch start_step rest (processBatch cfg epoch i cnt).2).2)

/-- The effects of one validation batch (reward.py lines 313-344): a
`get_reward` call under `torch.no_grad()`, one validation-loss record, and
the periodic progress print. -/
def valBatchEvents (cfg : ConfigTrainer) (i : Nat) : List TrainEvent :=
  [TrainEvent.getRewardCall true, TrainEvent.appendValidationLoss]
    ++ (if i % cfg.iteration_per_print = 0 then [TrainEvent.logProgress] else [])

/-- The loop over the first `n` validation batches, in order. -/
def valEvents (cfg : ConfigTrainer) : Nat → List TrainEvent
  | 0 => []
  | n + 1 => valEvents cfg n ++ valBatchEvents cfg n

/-- The per-epoch validation pass (reward.py lines 309-344), entered only
when a validation dataset is configured. -/
def valPhase (cfg : ConfigTrainer) (nVal : Nat) : List TrainEvent :=
  if cfg.validation_flag then valEvents cfg nVal else []

/-- The epoch loop of `RewardTrainer.train` (reward.py lines 232-346), driven
by the number of remaining epochs; `start_step` is reset to 0 at the end of
every epoch (line 346), so only the first iteration skips batches.
`nTrain` and `nVal` are the numbers of batches the two dataloaders yield. -/
def trainFrom (cfg : ConfigTrainer) (nTrain nVal : Nat) :
    Nat → Nat → Nat → Nat → List TrainEvent × Nat
  | _, 0, _, cnt => ([], cnt)
  | epoch, fuel + 1, start_step, cnt =>
    ((foldBatches cfg epoch start_step (List.range nTrain) cnt).1
        ++ valPhase cfg nVal
        ++ (trainFrom cfg nTrain nVal (epoch + 1) fuel 0
            (foldBatches cfg epoch start_step (List.range nTrain) cnt).2).1,
      (trainFrom cfg nTrain nVal (epoch + 1) fuel 0
          (foldBatches cfg epoch start_step (List.range nTrain) cnt).2).2)

/-- `RewardTrainer.train` (reward.py lines 201-349): the loop runs from the
resume point `(start_epoch, start_step)` returned by `load_checkpoint`
(line 226), the checkpoint counter starts at 1 (line 229), and the model is
saved unconditionally at the very end (line 349). -/
def train (cfg : ConfigTrainer) (nTrain nVal start_epoch start_step : Nat) :
    List TrainEvent × Nat :=
  ((trainFrom cfg nTrain nVal start_epoch (cfg.epochs - start_epoch) start_step 1).1
      ++ [TrainEvent.saveModel],
    (trainFrom cfg nTrain nVal start_epoch (cfg.epochs - start_epoch) start_step 1).2)

/-- The three execution-backend variants of the Backend Dispatcher. -/
inductive BackendVariant where
  | deepspeed
  | accelerate
  | plain
deriving Repr, DecidableEq

/-- Spec-side definition, following the specification's words: the variant
selection order — distributed-optimized takes precedence over accelerated,
which takes precedence over plain. -/
def chosenVariant (cfg : ConfigTrainer) : BackendVariant :=
  if cfg.deepspeed_enable then BackendVariant.deepspeed
  else if cfg.accelerate_enable then BackendVariant.accelerate
  else BackendVariant.plain

/-- Spec-side definition: the forward call each variant performs per step. -/
def variantForward : BackendVariant → TrainEvent
  | BackendVariant.deepspeed => TrainEvent.engineForward
  | BackendVariant.accelerate => TrainEvent.getRewardCall false
  | BackendVariant.plain => TrainEvent.getRewardCall false

/-- Spec-side definition: the backward-and-step sequence of each variant. -/
def variantBackward : BackendVariant → List TrainEvent
  | BackendVariant.deepspeed => [TrainEvent.engineBackward, TrainEvent.engineStep]
  | BackendVariant.accelerate =>
      [TrainEvent.zeroGrad, TrainEvent.acceleratorBackward, TrainEvent.optimizerStep,
        TrainEvent.schedulerStep]
  | BackendVariant.plain =>
      [TrainEvent.zeroGrad, TrainEvent.lossBackward, TrainEvent.optimizerStep,
        TrainEvent.schedulerStep]

/-- Recognizes a checkpoint save, whatever its position arguments. -/
def isSaveCkpt : TrainEvent → Bool
  | TrainEvent.saveCheckpoint _ _ => true
  | _ => false

/-- Number of batches the run processes (not skips): `nTrain - s` in the
resumed epoch, `nTrain` in each of the remaining epochs. -/
def totalProcessedFrom (nTrain : Nat) : Nat → Nat → Nat
  | 0, _ => 0
  | fuel + 1, s => (nTrain - s) + fuel * nTrain

example : (RewardModel.mk ⟨2, false⟩ (fun _ _ => [[1, 2], [3, 4]])).get_reward
    [[5, 6], [7, 8]] [[1, 1], [1, 1]] = Except.ok [2, 4] := rfl

example : trainBatchesOf 2 [1, 2, 3, 4, 5] = [[1, 2], [3, 4], [5]] := by
  rw [trainBatchesOf]
  rw [chunks.eq_def]
  norm_num
  rw [chunks.eq_def]
  norm_num
  rw [chunks.eq_def]
  norm_num
  rw [chunks.eq_def]

lemma chunks_eq_nil_iff {α : Type} (B : Nat) (l : List α) (hB : B ≠ 0) :
    chunks B l = [] ↔ l = [] := by
  constructor
  · intro h
    cases l with
    | nil => rfl
    | cons x xs =>
      rw [chunks.eq_def] at h
      simp [hB] at h
  · intro h
    subst h
    rw [chunks.eq_def]

lemma chunks_flatten {α : Type} (B : Nat) (hB : B ≠ 0) (l : List α) :
    (chunks B l).flatten = l := by
  induction l using chunks.induct B with
  | case1 =>
    rw [chunks.eq_def]
    rfl
  | case2 x xs h0 => exact absurd h0 hB
  | case3 x xs h0 ih =>
    rw [chunks.eq_def]
    simp only [hB, dite_false, List.flatten_cons, reduceDIte]
    rw [ih, List.take_append_drop]

lemma chunks_length {α : Type} (B : Nat) (hB : B ≠ 0) (l : List α) :
    (chunks B l).length = (l.length + B - 1) / B := by
  induction l using chunks.induct B with
  | case1 =>
    rw [chunks.eq_def]
    simp only [List.length_nil]
    rw [Nat.div_eq_of_lt (by omega)]
  | case2 x xs h0 => exact absurd h0 hB
  | case3 x xs h0 ih =>
    rw [chunks.eq_def]
    simp only [hB, reduceDIte, List.length_cons, List.length_drop] at ih ⊢
    rw [ih]
    have hBpos : 0 < B := Nat.pos_of_ne_zero hB
    have hn : xs.length + 1 + B - 1 = (xs.length + 1 - 1) + B := by omega
    rw [hn, Nat.add_div_right _ hBpos]
    by_cases hle : xs.length + 1 ≤ B
    · have h1 : xs.length + 1 - B = 0 := by omega
      rw [h1]
      rw [Nat.div_eq_of_lt (by omega), Nat.div_eq_of_lt (by omega)]
    · have h2 : xs.length + 1 - B + B - 1 = xs.length + 1 - 1 := by omega
      rw [h2]

lemma chunks_dropLast {α : Type} (B : Nat) (hB : B ≠ 0) (l : List α) :
    ∀ c ∈ (chunks B l).dropLast, c.length = B := by
  induction l using chunks.induct B with
  | case1 =>
    rw [chunks.eq_def]
    intro c hc
    simp at hc
  | case2 x xs h0 => exact absurd h0 hB
  | case3 x xs h0 ih =>
    rw [chunks.eq_def]
    simp only [hB, reduceDIte]
    by_cases hrest : List.drop B (x :: xs) = []
    · rw [hrest, chunks.eq_def]
      intro c hc
      simp at hc
    · have hne : chunks B (List.drop B (x :: xs)) ≠ [] := by
        rw [Ne, chunks_eq_nil_iff B _ hB]
        exact hrest
      rw [List.dropLast_cons_of_ne_nil hne]
      intro c hc
      rcases List.mem_cons.mp hc with hc1 | hc2
      · subst hc1
        have hlen : B < (x :: xs).length := by
          by_contra hcon
          exact hrest (List.drop_eq_nil_of_le (by omega))
        rw [List.length_take]
        simp only [List.length_cons] at hlen ⊢
        omega
      · exact ih c hc2

lemma chunks_getLast {α : Type} (B : Nat) (hB : B ≠ 0) (l : List α) :
    ∀ c, (chunks B l).getLast? = some c →
      c.length = if l.length % B = 0 then B else l.length % B := by
  induction l using chunks.induct B with
  | case1 =>
    rw [chunks.eq_def]
    intro c hc
    simp at hc
  | case2 x xs h0 => exact absurd h0 hB
  | case3 x xs h0 ih =>
    rw [chunks.eq_def]
    simp only [hB, reduceDIte]
    intro c hc
    by_cases hrest : List.drop B (x :: xs) = []
    · rw [hrest, chunks.eq_def] at hc
      simp only [List.getLast?_singleton, Option.some.injEq] at hc
      subst hc
      have hle : (x :: xs).length ≤ B := by
        have hlen := congrArg List.length hrest
        rw [List.length_drop] at hlen
        simp only [List.length_nil] at hlen
        omega
      rw [List.length_take]
      have hmin : B ⊓ (x :: xs).length = (x :: xs).length := by omega
      rw [hmin]
      have hpos : 0 < (x :: xs).length := by simp
      by_cases hmod : (x :: xs).length % B = 0
      · have hdvd : B ∣ (x :: xs).length := Nat.dvd_of_mod_eq_zero hmod
        have hBle : B ≤ (x :: xs).length := Nat.le_of_dvd hpos hdvd
        have heq : (x :: xs).length = B := by omega
        simp [hmod, heq]
      · have hlt : (x :: xs).length < B := by
          rcases Nat.lt_or_ge (x :: xs).length B with hl | hg
          · exact hl
          · have heq : (x :: xs).length = B := by omega
            rw [heq, Nat.mod_self] at hmod
            exact absurd rfl hmod
        simp only [hmod, if_false]
        rw [Nat.mod_eq_of_lt hlt]
    · have hne : chunks B (List.drop B (x :: xs)) ≠ [] := by
        rw [Ne, chunks_eq_nil_iff B _ hB]
        exact hrest
      obtain ⟨b, l2, hbl⟩ := List.exists_cons_of_ne_nil hne
      rw [hbl, List.getLast?_cons_cons] at hc
      have hc2 : (chunks B (List.drop B (x :: xs))).getLast? = some c := by
        rw [hbl]
        exact hc
      have hih := ih c hc2
      have hBle : B < (x :: xs).length := by
        by_contra hcon
        exact hrest (List.drop_eq_nil_of_le (by omega))
      have hmod : (x :: xs).length % B = (List.drop B (x :: xs)).length % B := by
        rw [List.length_drop]
        exact Nat.mod_eq_sub_mod (by omega)
      rw [hmod]
      exact hih

/-- C8: for a training dataset of size `M` and batch size `B`, the training
dataloader yields exactly `ceil(M/B)` batches in dataset order without
shuffling, each of size `B` except possibly the last, whose size is
`M mod B` when `B` does not divide `M` (and `B` otherwise), and the batch
sizes sum to exactly `M`. -/
theorem C8_dataloader_partition {α : Type} (B : Nat) (l : List α) (hB : 0 < B) :
    (trainBatchesOf B l).length = (l.length + B - 1) / B
    ∧ (trainBatchesOf B l).flatten = l
    ∧ (∀ c ∈ (trainBatchesOf B l).dropLast, c.length = B)
    ∧ (∀ c, (trainBatchesOf B l).getLast? = some c →
        c.length = if l.length % B = 0 then B else l.length % B)
    ∧ ((trainBatchesOf B l).map List.length).sum = l.length := by
  have hB0 : B ≠ 0 := Nat.pos_iff_ne_zero.mp hB
  refine ⟨chunks_length B hB0 l, chunks_flatten B hB0 l, chunks_dropLast B hB0 l,
    chunks_getLast B hB0 l, ?_⟩
  rw [trainBatchesOf, ← List.length_flatten, chunks_flatten B hB0 l]

theorem C8_dataloader_partition_witness :
    0 < 2
    ∧ ((trainBatchesOf 2 ([10, 20, 30] : List Nat)).length = (([10, 20, 30] : List Nat).length + 2 - 1) / 2
      ∧ (trainBatchesOf 2 ([10, 20, 30] : List Nat)).flatten = [10, 20, 30]
      ∧ (∀ c ∈ (trainBatchesOf 2 ([10, 20, 30] : List Nat)).dropLast, c.length = 2)
      ∧ (∀ c, (trainBatchesOf 2 ([10, 20, 30] : List Nat)).getLast? = some c →
          c.length = if ([10, 20, 30] : List Nat).length % 2 = 0 then 2 else ([10, 20, 30] : List Nat).length % 2)
      ∧ ((trainBatchesOf 2 ([10, 20, 30] : List Nat)).map List.length).sum = ([10, 20, 30] : List Nat).length) :=
  ⟨by decide, C8_dataloader_partition 2 [10, 20, 30] (by decide)⟩

/-- C9: for every in-range index, `RewardDataset.__getitem__` returns the pair
of the character-for-character concatenation of the record's `user_input` and
`completion` fields with no separator, and the record's `score` as a number. -/
theorem C9_getitem_pair (d : RewardDataset) (idx : Nat) (h : idx < d.data.length) :
    ∃ r : RewardRecord, d.data[idx]? = some r
      ∧ d.getItem idx = some (r.user_input ++ r.completion, r.score)
      ∧ (r.user_input ++ r.completion).data = r.user_input.data ++ r.completion.data := by
  refine ⟨d.data[idx], List.getElem?_eq_getElem h, ?_, String.data_append _ _⟩
  rw [RewardDataset.getItem, List.getElem?_eq_getElem h]

theorem C9_getitem_pair_witness :
    (0 : Nat) < (RewardDataset.mk [⟨"Q: 2+2? ", "4", 1⟩]).data.length
    ∧ ∃ r : RewardRecord, (RewardDataset.mk [⟨"Q: 2+2? ", "4", 1⟩]).data[0]? = some r
      ∧ (RewardDataset.mk [⟨"Q: 2+2? ", "4", 1⟩]).getItem 0
          = some (r.user_input ++ r.completion, r.score)
      ∧ (r.user_input ++ r.completion).data = r.user_input.data ++ r.completion.data :=
  ⟨by decide, C9_getitem_pair (RewardDataset.mk [⟨"Q: 2+2? ", "4", 1⟩]) 0 (by decide)⟩

/-- C1: for every batch whose sequence length does not exceed
`max_sequence_length` (and whose base model returns one reward row per example
with one value per position), `get_reward` succeeds, the result has one scalar
per example of the batch — shape `(batch_size,)` — and each scalar is the
value of `forward` at the last sequence position of that example. -/
theorem C1_get_reward_last_position (m : RewardModel) (seq mask : Tokens)
    (hlen : shapeDim1 seq ≤ m.config.max_sequence_length)
    (hrows : ∀ row ∈ m.forward seq mask, row ≠ [])
    (hbatch : (m.forward seq mask).length = seq.length) :
    ∃ r : List ℚ, m.get_reward seq mask = Except.ok r
      ∧ r.length = seq.length
      ∧ ∀ (i : Nat) (row : List ℚ), (m.forward seq mask)[i]? = some row →
          ∃ hne : row ≠ [], r[i]? = some (row.getLast hne) := by
  refine ⟨lastCol (m.forward seq mask), ?_, ?_, ?_⟩
  · rw [RewardModel.get_reward, if_neg (Nat.not_lt.mpr hlen)]
  · rw [lastCol, List.length_map, hbatch]
  · intro i row hrow
    have hne : row ≠ [] := hrows row (List.getElem?_mem hrow)
    refine ⟨hne, ?_⟩
    rw [lastCol, List.getElem?_map, hrow]
    have hlast : row.getLastD 0 = row.getLast hne := by
      rw [List.getLastD_eq_getLast?, List.getLast?_eq_getLast row hne]
      rfl
    rw [Option.map_some', hlast]

theorem C1_get_reward_last_position_witness :
    shapeDim1 [[1, 2]] ≤ (RewardModel.mk ⟨4, false⟩ (fun _ _ => [[3, 7]])).config.max_sequence_length
    ∧ (∀ row ∈ (RewardModel.mk ⟨4, false⟩ (fun _ _ => [[3, 7]])).forward [[1, 2]] [[1, 1]], row ≠ [])
    ∧ ((RewardModel.mk ⟨4, false⟩ (fun _ _ => [[3, 7]])).forward [[1, 2]] [[1, 1]]).length
        = ([[1, 2]] : Tokens).length
    ∧ ∃ r : List ℚ,
        (RewardModel.mk ⟨4, false⟩ (fun _ _ => [[3, 7]])).get_reward [[1, 2]] [[1, 1]] = Except.ok r
        ∧ r.length = ([[1, 2]] : Tokens).length
        ∧ ∀ (i : Nat) (row : List ℚ),
            ((RewardModel.mk ⟨4, false⟩ (fun _ _ => [[3, 7]])).forward [[1, 2]] [[1, 1]])[i]? = some row →
            ∃ hne : row ≠ [], r[i]? = some (row.getLast hne) :=
  ⟨by decide, by decide, rfl,
    C1_get_reward_last_position (RewardModel.mk ⟨4, false⟩ (fun _ _ => [[3, 7]]))
      [[1, 2]] [[1, 1]] (by decide) (by decide) rfl⟩

/-- C2: for every input whose token-sequence length exceeds the configured
`max_sequence_length`, `get_reward` raises the length-validation error, and
the outcome is the same whatever the base model and mask are — the check
happens before `forward`, so no base-model computation takes place. -/
theorem C2_length_validation (c : ConfigRewardModel)
    (f g : Tokens → Tokens → List (List ℚ)) (seq mask mask2 : Tokens)
    (h : shapeDim1 seq > c.max_sequence_length) :
    (RewardModel.mk c f).get_reward seq mask
      = Except.error (lengthErrorMsg (shapeDim1 seq) c.max_sequence_length)
    ∧ (RewardModel.mk c f).get_reward seq mask
      = (RewardModel.mk c g).get_reward seq mask2 := by
  constructor
  · rw [RewardModel.get_reward, if_pos h]
  · rw [RewardModel.get_reward, if_pos h, RewardModel.get_reward, if_pos h]

theorem C2_length_validation_witness :
    shapeDim1 [[1, 2, 3]] > (⟨2, false⟩ : ConfigRewardModel).max_sequence_length
    ∧ ((RewardModel.mk ⟨2, false⟩ (fun _ _ => [[5]])).get_reward [[1, 2, 3]] [[1, 1, 1]]
        = Except.error (lengthErrorMsg (shapeDim1 [[1, 2, 3]]) (⟨2, false⟩ : ConfigRewardModel).max_sequence_length)
      ∧ (RewardModel.mk ⟨2, false⟩ (fun _ _ => [[5]])).get_reward [[1, 2, 3]] [[1, 1, 1]]
        = (RewardModel.mk ⟨2, false⟩ (fun _ _ => [[9]])).get_reward [[1, 2, 3]] [[0, 0, 0]]) :=
  ⟨by decide, C2_length_validation ⟨2, false⟩ (fun _ _ => [[5]]) (fun _ _ => [[9]])
    [[1, 2, 3]] [[1, 1, 1]] [[0, 0, 0]] (by decide)⟩

/-- C10: the deepspeed training path computes the prediction by calling the
engine directly and taking the last position, with no length validation: there
is an over-long input on which the deepspeed path runs the forward pass (its
result depends on the engine function) while `get_reward` — the path taken by
the plain and accelerated variants — returns the length-validation error
whatever the base model is, performing no forward computation. -/
theorem C10_deepspeed_skips_length_check :
    ∃ (c : ConfigRewardModel) (seq mask : Tokens)
      (f g : Tokens → Tokens → List (List ℚ)),
      shapeDim1 seq > c.max_sequence_length
      ∧ deepspeedStepOutput f seq mask ≠ deepspeedStepOutput g seq mask
      ∧ ∀ e : Tokens → Tokens → List (List ℚ),
          (RewardModel.mk c e).get_reward seq mask
            = Except.error (lengthErrorMsg (shapeDim1 seq) c.max_sequence_length) := by
  refine ⟨⟨1, false⟩, [[0, 0]], [[1, 1]], fun _ _ => [[0]], fun _ _ => [[1]], ?_, ?_, ?_⟩
  · decide
  · decide
  · intro e
    simp [RewardModel.get_reward, shapeDim1]

/-- C6: on every training step exactly one backend variant is executed,
chosen with the fixed precedence deepspeed over accelerate over plain: the
forward and backward branches of the step equal the chosen variant's, the
deepspeed flag forces the distributed-optimized variant whatever the
accelerate flag is, and with it off the accelerate flag decides between the
accelerated and the plain variant. -/
theorem C6_backend_precedence (cfg : ConfigTrainer) (i : Nat) :
    forwardEvent cfg = variantForward (chosenVariant cfg)
    ∧ backwardEvents cfg = variantBackward (chosenVariant cfg)
    ∧ batchCoreEvents cfg i
        = variantForward (chosenVariant cfg) :: TrainEvent.appendTrainingLoss
            :: variantBackward (chosenVariant cfg)
          ++ (if i % cfg.iteration_per_print = 0 then [TrainEvent.logProgress] else [])
    ∧ chosenVariant {cfg with deepspeed_enable := true} = BackendVariant.deepspeed
    ∧ chosenVariant {cfg with deepspeed_enable := false, accelerate_enable := true}
        = BackendVariant.accelerate
    ∧ chosenVariant {cfg with deepspeed_enable := false, accelerate_enable := false}
        = BackendVariant.plain := by
  rcases cfg with ⟨ds, acc, cs, ipp, ep, vf⟩
  cases ds <;> cases acc <;>
    simp [forwardEvent, backwardEvents, chosenVariant, variantForward, variantBackward,
      batchCoreEvents]

/-- C7: in the deepspeed variant the backward pass and optimizer step of
every training step are delegated entirely to the engine (`engine.backward`
then `engine.step`), with no explicit `zero_grad` and no scheduler step; in
the plain and accelerated variants every step performs `zero_grad`, a
backward pass, an optimizer step and a scheduler step. -/
theorem C7_backward_step_content (cfg : ConfigTrainer) :
    backwardEvents {cfg with deepspeed_enable := true}
      = [TrainEvent.engineBackward, TrainEvent.engineStep]
    ∧ TrainEvent.zeroGrad ∉ backwardEvents {cfg with deepspeed_enable := true}
    ∧ TrainEvent.schedulerStep ∉ backwardEvents {cfg with deepspeed_enable := true}
    ∧ TrainEvent.optimizerStep ∉ backwardEvents {cfg with deepspeed_enable := true}
    ∧ backwardEvents {cfg with deepspeed_enable := false, accelerate_enable := true}
      = [TrainEvent.zeroGrad, TrainEvent.acceleratorBackward, TrainEvent.optimizerStep,
          TrainEvent.schedulerStep]
    ∧ backwardEvents {cfg with deepspeed_enable := false, accelerate_enable := false}
      = [TrainEvent.zeroGrad, TrainEvent.lossBackward, TrainEvent.optimizerStep,
          TrainEvent.schedulerStep] := by
  rcases cfg with ⟨ds, acc, cs, ipp, ep, vf⟩
  refine ⟨rfl, ?_, ?_, ?_, rfl, rfl⟩ <;> simp [backwardEvents]

lemma foldBatches_filter (cfg : ConfigTrainer) (epoch s : Nat) :
    ∀ (l : List Nat) (cnt : Nat),
      foldBatches cfg epoch s l cnt
        = foldBatches cfg epoch 0 (l.filter (fun i => decide (s ≤ i))) cnt := by
  intro l
  induction l with
  | nil => intro cnt; rfl
  | cons i rest ih =>
    intro cnt
    rw [foldBatches, List.filter_cons]
    by_cases hi : i < s
    · rw [if_pos hi]
      have hd : (decide (s ≤ i)) = false := by simp; omega
      rw [hd, if_neg (by simp)]
      exact ih cnt
    · rw [if_neg hi]
      have hd : (decide (s ≤ i)) = true := by simp; omega
      rw [hd, if_pos rfl, foldBatches, if_neg (by omega)]
      rw [ih]

/-- C3: on resume, the first epoch's loop skips exactly the batches whose
index is strictly below `start_step` — with no effect on the trace or the
checkpoint counter, as if the loop ran over only the indices `≥ start_step`
with no skip condition — and every subsequent epoch of the loop runs with
`start_step` reset to 0, processing all batches from index 0. -/
theorem C3_resume_skip (cfg : ConfigTrainer) (nTrain nVal epoch fuel start_step cnt : Nat) :
    foldBatches cfg epoch start_step (List.range nTrain) cnt
      = foldBatches cfg epoch 0
          ((List.range nTrain).filter (fun i => decide (start_step ≤ i))) cnt
    ∧ trainFrom cfg nTrain nVal epoch (fuel + 1) start_step cnt
      = ((foldBatches cfg epoch start_step (List.range nTrain) cnt).1
          ++ valPhase cfg nVal
          ++ (trainFrom cfg nTrain nVal (epoch + 1) fuel 0
              (foldBatches cfg epoch start_step (List.range nTrain) cnt).2).1,
         (trainFrom cfg nTrain nVal (epoch + 1) fuel 0
              (foldBatches cfg epoch start_step (List.range nTrain) cnt).2).2) :=
  ⟨foldBatches_filter cfg epoch start_step (List.range nTrain) cnt, rfl⟩

lemma countP_isSaveCkpt_core (cfg : ConfigTrainer) (i : Nat) :
    (batchCoreEvents cfg i).countP isSaveCkpt = 0 := by
  rcases cfg with ⟨ds, acc, cs, ipp, ep, vf⟩
  rw [batchCoreEvents]
  by_cases hp : i % ipp = 0 <;>
    cases ds <;> cases acc <;>
      simp [hp, backwardEvents, forwardEvent, isSaveCkpt,
        List.countP_cons, List.countP_append]

lemma processBatch_ckpt (cfg : ConfigTrainer) (hN : 0 < cfg.checkpoint_steps)
    (e i p : Nat) :
    (processBatch cfg e i (p % cfg.checkpoint_steps + 1)).1.countP isSaveCkpt
      = (p + 1) / cfg.checkpoint_steps - p / cfg.checkpoint_steps
    ∧ (processBatch cfg e i (p % cfg.checkpoint_steps + 1)).2
      = (p + 1) % cfg.checkpoint_steps + 1 := by
  have hmm : (p % cfg.checkpoint_steps + 1) % cfg.checkpoint_steps
      = (p + 1) % cfg.checkpoint_steps := Nat.mod_add_mod p cfg.checkpoint_steps 1
  by_cases hz : (p % cfg.checkpoint_steps + 1) % cfg.checkpoint_steps = 0
  · have h1 : (p + 1) % cfg.checkpoint_steps = 0 := by rw [← hmm]; exact hz
    have hdvd : cfg.checkpoint_steps ∣ (p + 1) := Nat.dvd_of_mod_eq_zero h1
    rw [processBatch, if_pos hz]
    constructor
    · rw [List.countP_append, countP_isSaveCkpt_core, Nat.succ_div]
      simp [hdvd, isSaveCkpt, List.countP_cons]
    · rw [h1]
  · have h1 : (p + 1) % cfg.checkpoint_steps ≠ 0 := by rw [← hmm]; exact hz
    have hdvd : ¬ cfg.checkpoint_steps ∣ (p + 1) := fun hd =>
      h1 (Nat.dvd_iff_mod_eq_zero.mp hd)
    rw [processBatch, if_neg hz]
    constructor
    · rw [countP_isSaveCkpt_core, Nat.succ_div]
      simp [hdvd]
    · have hlt : p % cfg.checkpoint_steps + 1 < cfg.checkpoint_steps
          ∨ p % cfg.checkpoint_steps + 1 = cfg.checkpoint_steps := by
        have := Nat.mod_lt p hN
        omega
      rcases hlt with hlt | heq
      · rw [← hmm, Nat.mod_eq_of_lt hlt]
      · exact absurd (by rw [heq, Nat.mod_self]) hz

lemma foldBatches_ckpt (cfg : ConfigTrainer) (hN : 0 < cfg.checkpoint_steps)
    (e s : Nat) :
    ∀ (l : List Nat) (p : Nat),
      (foldBatches cfg e s l (p % cfg.checkpoint_steps + 1)).1.countP isSaveCkpt
        = (p + l.countP (fun i => decide (s ≤ i))) / cfg.checkpoint_steps
            - p / cfg.checkpoint_steps
      ∧ (foldBatches cfg e s l (p % cfg.checkpoint_steps + 1)).2
        = (p + l.countP (fun i => decide (s ≤ i))) % cfg.checkpoint_steps + 1 := by
  intro l
  induction l with
  | nil =>
    intro p
    constructor
    · simp [foldBatches]
    · simp [foldBatches]
  | cons i rest ih =>
    intro p
    by_cases hi : i < s
    · have hcc : (i :: rest).countP (fun j => decide (s ≤ j))
          = rest.countP (fun j => decide (s ≤ j)) := by
        rw [List.countP_cons]
        have hd : (decide (s ≤ i)) = false := by simp; omega
        simp [hd]
      rw [foldBatches, if_pos hi, hcc]
      exact ih p
    · have hcc : (i :: rest).countP (fun j => decide (s ≤ j))
          = rest.countP (fun j => decide (s ≤ j)) + 1 := by
        rw [List.countP_cons]
        have hd : (decide (s ≤ i)) = true := by simp; omega
        simp [hd]
      rw [foldBatches, if_neg hi, hcc]
      obtain ⟨hp1, hp2⟩ := processBatch_ckpt cfg hN e i p
      obtain ⟨hr1, hr2⟩ := ih (p + 1)
      constructor
      · rw [List.countP_append, hp1, hp2, hr1]
        have m1 : p / cfg.checkpoint_steps ≤ (p + 1) / cfg.checkpoint_steps :=
          Nat.div_le_div_right (by omega)
        have m2 : (p + 1) / cfg.checkpoint_steps
            ≤ (p + 1 + rest.countP (fun j => decide (s ≤ j))) / cfg.checkpoint_steps :=
          Nat.div_le_div_right (by omega)
        have ha : p + 1 + rest.countP (fun j => decide (s ≤ j))
            = p + (rest.countP (fun j => decide (s ≤ j)) + 1) := by omega
        rw [ha] at m2 hr1 ⊢
        omega
      · rw [hp2, hr2]
        have ha : p + 1 + rest.countP (fun j => decide (s ≤ j))
            = p + (rest.countP (fun j => decide (s ≤ j)) + 1) := by omega
        rw [ha]

lemma countP_isSaveCkpt_valBatch (cfg : ConfigTrainer) (i : Nat) :
    (valBatchEvents cfg i).countP isSaveCkpt = 0 := by
  rw [valBatchEvents]
  by_cases hp : i % cfg.iteration_per_print = 0 <;>
    simp [hp, isSaveCkpt, List.countP_cons, List.countP_append]

lemma countP_isSaveCkpt_valEvents (cfg : ConfigTrainer) :
    ∀ n, (valEvents cfg n).countP isSaveCkpt = 0 := by
  intro n
  induction n with
  | zero => rfl
  | succ n ih =>
    rw [valEvents, List.countP_append, ih, countP_isSaveCkpt_valBatch]

lemma countP_isSaveCkpt_valPhase (cfg : ConfigTrainer) (nVal : Nat) :
    (valPhase cfg nVal).countP isSaveCkpt = 0 := by
  rw [valPhase]
  by_cases hv : cfg.validation_flag
  · rw [if_pos hv, countP_isSaveCkpt_valEvents]
  · rw [if_neg hv]
    rfl

lemma range_countP_ge (s n : Nat) :
    (List.range n).countP (fun i => decide (s ≤ i)) = n - s := by
  induction n with
  | zero =>
    rw [List.range_zero, List.countP_nil]
    omega
  | succ n ih =>
    rw [List.range_succ, List.countP_append, ih]
    by_cases hs : s ≤ n
    · simp [hs]
      omega
    · simp [hs]
      omega

lemma totalProcessedFrom_zero_start (nT : Nat) :
    ∀ fuel, totalProcessedFrom nT fuel 0 = fuel * nT := by
  intro fuel
  cases fuel with
  | zero =>
    rw [totalProcessedFrom]
    omega
  | succ f =>
    rw [totalProcessedFrom, Nat.succ_mul]
    omega

lemma trainFrom_ckpt (cfg : ConfigTrainer) (hN : 0 < cfg.checkpoint_steps)
    (nT nV : Nat) :
    ∀ (fuel e s p : Nat),
      (trainFrom cfg nT nV e fuel s (p % cfg.checkpoint_steps + 1)).1.countP isSaveCkpt
        = (p + totalProcessedFrom nT fuel s) / cfg.checkpoint_steps
            - p / cfg.checkpoint_steps
      ∧ (trainFrom cfg nT nV e fuel s (p % cfg.checkpoint_steps + 1)).2
        = (p + totalProcessedFrom nT fuel s) % cfg.checkpoint_steps + 1 := by
  intro fuel
  induction fuel with
  | zero =>
    intro e s p
    constructor
    · simp [trainFrom, totalProcessedFrom]
    · simp [trainFrom, totalProcessedFrom]
  | succ f ih =>
    intro e s p
    obtain ⟨hf1, hf2⟩ := foldBatches_ckpt cfg hN e s (List.range nT) p
    rw [range_countP_ge] at hf1 hf2
    obtain ⟨hr1, hr2⟩ := ih (e + 1) 0 (p + (nT - s))
    rw [totalProcessedFrom_zero_start nT f] at hr1 hr2
    have htp : p + totalProcessedFrom nT (f + 1) s = p + (nT - s) + f * nT := by
      rw [totalProcessedFrom]
      omega
    constructor
    · rw [trainFrom, List.countP_append, List.countP_append, hf1,
        countP_isSaveCkpt_valPhase, hf2, hr1, htp]
      have m1 : p / cfg.checkpoint_steps ≤ (p + (nT - s)) / cfg.checkpoint_steps :=
        Nat.div_le_div_right (by omega)
      have m2 : (p + (nT - s)) / cfg.checkpoint_steps
          ≤ (p + (nT - s) + f * nT) / cfg.checkpoint_steps :=
        Nat.div_le_div_right (by omega)
      omega
    · rw [trainFrom, hf2, hr2, htp]

lemma saveModel_not_mem_core (cfg : ConfigTrainer) (i : Nat) :
    TrainEvent.saveModel ∉ batchCoreEvents cfg i := by
  rcases cfg with ⟨ds, acc, cs, ipp, ep, vf⟩
  rw [batchCoreEvents]
  by_cases hp : i % ipp = 0 <;>
    cases ds <;> cases acc <;>
      simp [hp, backwardEvents, forwardEvent]

lemma saveModel_not_mem_processBatch (cfg : ConfigTrainer) (e i cnt : Nat) :
    TrainEvent.saveModel ∉ (processBatch cfg e i cnt).1 := by
  rw [processBatch]
  by_cases hz : cnt % cfg.checkpoint_steps = 0
  · rw [if_pos hz]
    intro h
    rcases List.mem_append.mp h with h1 | h2
    · exact saveModel_not_mem_core cfg i h1
    · simp at h2
  · rw [if_neg hz]
    exact saveModel_not_mem_core cfg i

lemma saveModel_not_mem_foldBatches (cfg : ConfigTrainer) (e s : Nat) :
    ∀ (l : List Nat) (cnt : Nat),
      TrainEvent.saveModel ∉ (foldBatches cfg e s l cnt).1 := by
  intro l
  induction l with
  | nil =>
    intro cnt h
    simp [foldBatches] at h
  | cons i rest ih =>
    intro cnt
    by_cases hi : i < s
    · rw [foldBatches, if_pos hi]
      exact ih cnt
    · rw [foldBatches, if_neg hi]
      intro h
      rcases List.mem_append.mp h with h1 | h2
      · exact saveModel_not_mem_processBatch cfg e i cnt h1
      · exact ih _ h2

lemma saveModel_not_mem_valBatch (cfg : ConfigTrainer) (i : Nat) :
    TrainEvent.saveModel ∉ valBatchEvents cfg i := by
  rw [valBatchEvents]
  by_cases hp : i % cfg.iteration_per_print = 0 <;> simp [hp]

lemma saveModel_not_mem_valPhase (cfg : ConfigTrainer) (nVal : Nat) :
    TrainEvent.saveModel ∉ valPhase cfg nVal := by
  rw [valPhase]
  by_cases hv : cfg.validation_flag
  · rw [if_pos hv]
    induction nVal with
    | zero => simp [valEvents]
    | succ n ih =>
      rw [valEvents]
      intro h
      rcases List.mem_append.mp h with h1 | h2
      · exact ih h1
      · exact saveModel_not_mem_valBatch cfg n h2
  · rw [if_neg hv]
    simp

lemma saveModel_not_mem_trainFrom (cfg : ConfigTrainer) (nT nV : Nat) :
    ∀ (fuel e s cnt : Nat),
      TrainEvent.saveModel ∉ (trainFrom cfg nT nV e fuel s cnt).1 := by
  intro fuel
  induction fuel with
  | zero =>
    intro e s cnt h
    simp [trainFrom] at h
  | succ f ih =>
    intro e s cnt
    rw [trainFrom]
    intro h
    rcases List.mem_append.mp h with h12 | h3
    · rcases List.mem_append.mp h12 with h1 | h2
      · exact saveModel_not_mem_foldBatches cfg e s (List.range nT) cnt h1
      · exact saveModel_not_mem_valPhase cfg nV h2
    · exact ih (e + 1) 0 _ h3

/-- C4: across one run of `RewardTrainer.train`, a checkpoint is saved
exactly once per `checkpoint_steps` processed training batches — the number
of checkpoint saves is the total count of processed batches of the whole run
divided by `checkpoint_steps`, and the final value of the single counter,
never reset at an epoch boundary, is the total count modulo
`checkpoint_steps` plus one — and a final model snapshot is saved
unconditionally exactly once, as the very last action after the last epoch. -/
theorem C4_checkpoint_cadence (cfg : ConfigTrainer)
    (nTrain nVal start_epoch start_step : Nat) (hN : 0 < cfg.checkpoint_steps) :
    (train cfg nTrain nVal start_epoch start_step).1.countP isSaveCkpt
      = totalProcessedFrom nTrain (cfg.epochs - start_epoch) start_step
          / cfg.checkpoint_steps
    ∧ (train cfg nTrain nVal start_epoch start_step).2
      = totalProcessedFrom nTrain (cfg.epochs - start_epoch) start_step
          % cfg.checkpoint_steps + 1
    ∧ (train cfg nTrain nVal start_epoch start_step).1.count TrainEvent.saveModel = 1
    ∧ (train cfg nTrain nVal start_epoch start_step).1.getLast?
      = some TrainEvent.saveModel := by
  have h0 : (0 : Nat) % cfg.checkpoint_steps + 1 = 1 := by rw [Nat.zero_mod]
  obtain ⟨h1, h2⟩ := trainFrom_ckpt cfg hN nTrain nVal
    (cfg.epochs - start_epoch) start_epoch start_step 0
  rw [h0] at h1 h2
  simp only [Nat.zero_add, Nat.zero_div, Nat.sub_zero] at h1 h2
  refine ⟨?_, ?_, ?_, ?_⟩
  · rw [train, List.countP_append, h1]
    simp [isSaveCkpt, List.countP_cons]
  · rw [train]
    exact h2
  · rw [train, List.count_append]
    have hz : (trainFrom cfg nTrain nVal start_epoch (cfg.epochs - start_epoch)
        start_step 1).1.count TrainEvent.saveModel = 0 :=
      List.count_eq_zero.mpr
        (saveModel_not_mem_trainFrom cfg nTrain nVal (cfg.epochs - start_epoch)
          start_epoch start_step 1)
    rw [hz]
    decide
  · rw [train]
    exact List.getLast?_concat _

theorem C4_checkpoint_cadence_witness :
    0 < (⟨false, false, 2, 1, 2, false⟩ : ConfigTrainer).checkpoint_steps
    ∧ ((train ⟨false, false, 2, 1, 2, false⟩ 3 0 0 0).1.countP isSaveCkpt
        = totalProcessedFrom 3 ((⟨false, false, 2, 1, 2, false⟩ : ConfigTrainer).epochs - 0) 0
            / (⟨false, false, 2, 1, 2, false⟩ : ConfigTrainer).checkpoint_steps
      ∧ (train ⟨false, false, 2, 1, 2, false⟩ 3 0 0 0).2
        = totalProcessedFrom 3 ((⟨false, false, 2, 1, 2, false⟩ : ConfigTrainer).epochs - 0) 0
            % (⟨false, false, 2, 1, 2, false⟩ : ConfigTrainer).checkpoint_steps + 1
      ∧ (train ⟨false, false, 2, 1, 2, false⟩ 3 0 0 0).1.count TrainEvent.saveModel = 1
      ∧ (train ⟨false, false, 2, 1, 2, false⟩ 3 0 0 0).1.getLast?
        = some TrainEvent.saveModel) :=
  ⟨by decide, C4_checkpoint_cadence ⟨false, false, 2, 1, 2, false⟩ 3 0 0 0 (by decide)⟩

lemma mem_valEvents_cases (cfg : ConfigTrainer) :
    ∀ (n : Nat) (ev : TrainEvent), ev ∈ valEvents cfg n →
      ev = TrainEvent.getRewardCall true ∨ ev = TrainEvent.appendValidationLoss
        ∨ ev = TrainEvent.logProgress := by
  intro n
  induction n with
  | zero =>
    intro ev h
    simp [valEvents] at h
  | succ n ih =>
    intro ev h
    rw [valEvents] at h
    rcases List.mem_append.mp h with h1 | h2
    · exact ih ev h1
    · rw [valBatchEvents] at h2
      by_cases hp : n % cfg.iteration_per_print = 0 <;> simp [hp] at h2 <;> tauto

lemma mem_valPhase_cases (cfg : ConfigTrainer) (nVal : Nat) :
    ∀ ev ∈ valPhase cfg nVal,
      ev = TrainEvent.getRewardCall true ∨ ev = TrainEvent.appendValidationLoss
        ∨ ev = TrainEvent.logProgress := by
  rw [valPhase]
  by_cases hv : cfg.validation_flag
  · rw [if_pos hv]
    exact mem_valEvents_cases cfg nVal
  · rw [if_neg hv]
    intro ev h
    simp at h

lemma count_appendVal_valEvents (cfg : ConfigTrainer) :
    ∀ n, (valEvents cfg n).count TrainEvent.appendValidationLoss = n := by
  intro n
  induction n with
  | zero => rfl
  | succ n ih =>
    rw [valEvents, List.count_append, ih, valBatchEvents]
    by_cases hp : n % cfg.iteration_per_print = 0 <;> simp [hp]

lemma foldBatches_vf (cfg : ConfigTrainer) (b : Bool) (e s : Nat) :
    ∀ (l : List Nat) (cnt : Nat),
      foldBatches {cfg with validation_flag := b} e s l cnt
        = foldBatches cfg e s l cnt := by
  intro l
  induction l with
  | nil => intro cnt; rfl
  | cons i rest ih =>
    intro cnt
    rw [foldBatches, foldBatches]
    by_cases hi : i < s
    · rw [if_pos hi, if_pos hi]
      exact ih cnt
    · rw [if_neg hi, if_neg hi]
      have hp : processBatch {cfg with validation_flag := b} e i cnt
          = processBatch cfg e i cnt := rfl
      rw [hp, ih ((processBatch cfg e i cnt).2)]

lemma trainFrom_vf_snd (cfg : ConfigTrainer) (b : Bool) (nT nV : Nat) :
    ∀ (fuel e s cnt : Nat),
      (trainFrom {cfg with validation_flag := b} nT nV e fuel s cnt).2
        = (trainFrom cfg nT nV e fuel s cnt).2 := by
  intro fuel
  induction fuel with
  | zero => intro e s cnt; rfl
  | succ f ih =>
    intro e s cnt
    rw [trainFrom, trainFrom]
    rw [foldBatches_vf cfg b e s (List.range nT) cnt]
    exact ih (e + 1) 0 ((foldBatches cfg e s (List.range nT) cnt).2)

/-- C5: the validation phase of `RewardTrainer.train` consists only of
no-gradient `get_reward` calls, validation-loss records and progress prints;
it records exactly one validation-loss record per validation batch; it
contains no optimizer step, no scheduler step, no gradient zeroing, no engine
step and no checkpoint save — so weights, optimizer, scheduler and checkpoint
state are untouched — and the checkpoint counter the loop carries is
identical whether or not validation is configured. -/
theorem C5_validation_isolation (cfg : ConfigTrainer)
    (nTrain nVal epoch fuel start_step cnt : Nat) :
    (∀ ev ∈ valPhase cfg nVal,
        ev = TrainEvent.getRewardCall true ∨ ev = TrainEvent.appendValidationLoss
          ∨ ev = TrainEvent.logProgress)
    ∧ TrainEvent.optimizerStep ∉ valPhase cfg nVal
    ∧ TrainEvent.schedulerStep ∉ valPhase cfg nVal
    ∧ TrainEvent.zeroGrad ∉ valPhase cfg nVal
    ∧ TrainEvent.engineStep ∉ valPhase cfg nVal
    ∧ (∀ e i, TrainEvent.saveCheckpoint e i ∉ valPhase cfg nVal)
    ∧ (valPhase cfg nVal).count TrainEvent.appendValidationLoss
      = (if cfg.validation_flag then nVal else 0)
    ∧ (trainFrom cfg nTrain nVal epoch fuel start_step cnt).2
      = (trainFrom {cfg with validation_flag := false} nTrain nVal epoch fuel
          start_step cnt).2 := by
  have hmem := mem_valPhase_cases cfg nVal
  refine ⟨hmem, ?_, ?_, ?_, ?_, ?_, ?_, ?_⟩
  · intro h
    rcases hmem _ h with h1 | h1 | h1 <;> simp at h1
  · intro h
    rcases hmem _ h with h1 | h1 | h1 <;> simp at h1
  · intro h
    rcases hmem _ h with h1 | h1 | h1 <;> simp at h1
  · intro h
    rcases hmem _ h with h1 | h1 | h1 <;> simp at h1
  · intro e i h
    rcases hmem _ h with h1 | h1 | h1 <;> simp at h1
  · rw [valPhase]
    by_cases hv : cfg.validation_flag
    · rw [if_pos hv, if_pos hv, count_appendVal_valEvents]
    · rw [if_neg hv, if_neg hv]
      rfl
  · exact (trainFrom_vf_snd cfg false nTrain nVal fuel epoch start_step cnt).symm
